import Mathlib

/-!
Verification of the easyqueue connection-resilience and consumption-dispatch
core (src/easyqueue/async_queue.py) against its natural-language specification.

The Python source is shallowly embedded:

* the _ensure_connected decorator (async_queue.py lines 29-52) becomes
  connectLoop / ensure_connected, with the outcomes of successive
  connection._connect() attempts supplied as an oracle list and the
  liveness flag supplied as a function of the retry counter (the loop
  re-reads self.is_running on every iteration);
* _ConsumptionHandler._handle_callback / handle_message become
  handle_callback / handle_message over a Delegate record of the
  AsyncQueueConsumerDelegate hooks, with raised exceptions embedded as
  Except and an explicit log of on_message_handle_error invocations;
* AsyncJsonQueue.serialize / deserialize call the default JSON codec
  (json.dumps / json.loads); the codec is embedded at the code-point level
  (dumps, parseVal, ...) for integer, string, list, tuple, dict and
  null/bool payloads; float payloads are outside the embedding;
* the facade operations put / consume / stop_consumer / ack / reject
  become functions returning the channel call they perform, or the raised
  error, as an Except value.

Machine text (Python str) is modelled as List Nat of unicode code points;
bytes as List Nat of byte values.
-/

namespace EasyQueue

/-! ## Connection Guard (_ensure_connected, async_queue.py lines 29-52)

One oracle entry per connection._connect() attempt: Option.none means the
attempt succeeds (after which connection.is_connected is true and the loop
breaks), Option.some e means it raises the exception e.  The liveness flag
self.is_running is re-read at the top of every loop iteration; it is
modelled as a function of the current retry count.  The logger is modelled
as present (an injected observer), so every failure is reported. -/

/-- Retry loop of the _ensure_connected wrapper: while self.is_running and
not self.connection.is_connected, try connection._connect() and break on
success; on failure sleep seconds_between_conn_retry, increment the retry
counter and report the failure (retry_count plus cause).  Returns the
connected state at loop exit, the emitted failure reports, and the list of
performed sleeps; Option.none means the oracle list ran out while the loop
still wanted to retry (the real loop would still be running). -/
def connectLoop {ε : Type} (interval : Nat) (running : Nat → Bool)
    (connected : Bool) :
    Nat → List (Option ε) → Option (Bool × List (Nat × ε) × List Nat)
  | retries, [] =>
    if running retries && !connected then none
    else some (connected, [], [])
  | retries, a :: rest =>
    if running retries && !connected then
      match a with
      | Option.none => some (true, [], [])
      | Option.some e =>
        match connectLoop interval running connected (retries + 1) rest with
        | none => none
        | some (c, reports, sleeps) =>
          some (c, (retries + 1, e) :: reports, interval :: sleeps)
    else
      some (connected, [], [])

/-- Outcome of one guarded-operation call: the failure reports emitted by
the retry loop, the sleeps it performed, the connected state at the moment
the wrapped operation body runs, and the operation body's own result. -/
structure GuardResult (ε α : Type) where
  reports : List (Nat × ε)
  sleeps : List Nat
  connected_at_call : Bool
  result : α

/-- The _ensure_connected wrapper itself: run the retry loop starting from
retries = 0, then invoke the wrapped coroutine with the original arguments
(closed over in coro) against the resulting connection state, whatever that
state is. -/
def ensure_connected {ε α : Type} (interval : Nat) (running : Nat → Bool)
    (connected : Bool) (attempts : List (Option ε)) (coro : Bool → α) :
    Option (GuardResult ε α) :=
  match connectLoop interval running connected 0 attempts with
  | none => none
  | some (c, reports, sleeps) => some ⟨reports, sleeps, c, coro c⟩

/-! ## Default JSON codec (json.dumps / json.loads as used by
AsyncJsonQueue.serialize / deserialize, async_queue.py lines 165-169)

Modelled from the spec: the codec itself lives outside the repository
(section 6 treats it as the pluggable default JSON text encoder/decoder);
it is embedded here with the semantics of the Python json module on the
payload kinds the model covers.  Payloads are embedded as JVal: None,
bool, int, str, list, tuple and str-keyed dict values; float payloads are
outside the embedding.  Strings are lists of unicode code points. -/

/-- Python values that the default codec can be fed: None, bool, int, str,
list, tuple and dict with string keys.  A tuple is a distinct payload kind
even though json.dumps renders it exactly like a list. -/
inductive JVal where
  | null : JVal
  | bool : Bool → JVal
  | int : Int → JVal
  | str : List Nat → JVal
  | arr : List JVal → JVal
  | tup : List JVal → JVal
  | obj : List (List Nat × JVal) → JVal

/-- Lowercase hexadecimal digit character for a value below 16. -/
def hexDigitChar (n : Nat) : Nat := if n < 10 then 48 + n else 87 + n

/-- Six-character escape sequence backslash-u-XXXX used by json.dumps for a
code unit below 0x10000. -/
def uEscape (c : Nat) : List Nat :=
  [92, 117, hexDigitChar (c / 4096 % 16), hexDigitChar (c / 256 % 16),
   hexDigitChar (c / 16 % 16), hexDigitChar (c % 16)]

/-- Escaping of one string character by json.dumps: quote and backslash get
two-character escapes, the five control characters with short forms get
theirs, remaining control characters get backslash-u escapes, and with
ensure_ascii every character above 0x7e is escaped as well (as a surrogate
pair beyond 0xffff).  All other characters pass through unchanged. -/
def escapeChar (ensure_ascii : Bool) (c : Nat) : List Nat :=
  if c = 34 then [92, 34]
  else if c = 92 then [92, 92]
  else if c = 8 then [92, 98]
  else if c = 9 then [92, 116]
  else if c = 10 then [92, 110]
  else if c = 12 then [92, 102]
  else if c = 13 then [92, 114]
  else if c < 32 then uEscape c
  else if ensure_ascii && 126 < c then
    if c < 65536 then uEscape c
    else uEscape (55296 + (c - 65536) / 1024) ++ uEscape (56320 + (c - 65536) % 1024)
  else [c]

/-- Escaped body of a JSON string literal. -/
def escapeString (ensure_ascii : Bool) (s : List Nat) : List Nat :=
  s.foldr (fun c acc => escapeChar ensure_ascii c ++ acc) []

/-- A JSON string literal: the escaped body between two double quotes. -/
def dumpsString (ensure_ascii : Bool) (s : List Nat) : List Nat :=
  34 :: escapeString ensure_ascii s ++ [34]

/-- Little-endian decimal digits of a natural number; the fuel argument is
an artifact of the embedding (it falls by one per digit, and the number
itself is always enough fuel). -/
def natDigitsAux : Nat → Nat → List Nat
  | _, 0 => []
  | 0, _ + 1 => []
  | fuel + 1, n + 1 => (n + 1) % 10 :: natDigitsAux fuel ((n + 1) / 10)

/-- Decimal digit characters of a natural number, most significant first. -/
def natToDecimal (n : Nat) : List Nat :=
  if n = 0 then [48] else ((natDigitsAux n n).map (fun d => d + 48)).reverse

/-- Decimal rendering of a Python int: an optional minus sign followed by
the digits of the absolute value. -/
def intToDecimal (n : Int) : List Nat :=
  if n < 0 then 45 :: natToDecimal n.natAbs else natToDecimal n.natAbs

mutual

/-- json.dumps with default separators: null/true/false literals, decimal
integers, escaped string literals, square-bracketed lists (tuples render
identically), and curly-bracketed objects. -/
def dumps (ensure_ascii : Bool) : JVal → List Nat
  | JVal.null => [110, 117, 108, 108]
  | JVal.bool true => [116, 114, 117, 101]
  | JVal.bool false => [102, 97, 108, 115, 101]
  | JVal.int n => intToDecimal n
  | JVal.str s => dumpsString ensure_ascii s
  | JVal.arr (x :: xs) =>
    91 :: (dumps ensure_ascii x ++ dumpsItemsTail ensure_ascii xs) ++ [93]
  | JVal.arr [] => [91, 93]
  | JVal.tup (x :: xs) =>
    91 :: (dumps ensure_ascii x ++ dumpsItemsTail ensure_ascii xs) ++ [93]
  | JVal.tup [] => [91, 93]
  | JVal.obj ((k, v) :: kvs) =>
    123 :: (dumpsString ensure_ascii k ++ 58 :: 32 :: dumps ensure_ascii v ++
      dumpsMembersTail ensure_ascii kvs) ++ [125]
  | JVal.obj [] => [123, 125]

/-- Remaining items of a non-empty list: each preceded by the default item
separator, a comma and a space. -/
def dumpsItemsTail (ensure_ascii : Bool) : List JVal → List Nat
  | [] => []
  | x :: xs => 44 :: 32 :: dumps ensure_ascii x ++ dumpsItemsTail ensure_ascii xs

/-- Remaining members of a non-empty object: comma-space separator, the key
string literal, the default key separator (colon and space), the value. -/
def dumpsMembersTail (ensure_ascii : Bool) : List (List Nat × JVal) → List Nat
  | [] => []
  | (k, v) :: kvs =>
    44 :: 32 :: dumpsString ensure_ascii k ++ 58 :: 32 :: dumps ensure_ascii v ++
      dumpsMembersTail ensure_ascii kvs

end

/-- JSON whitespace skipped by json.loads: space, tab, newline, return. -/
def skipWs : List Nat → List Nat
  | [] => []
  | c :: rest =>
    if c = 32 || c = 9 || c = 10 || c = 13 then skipWs rest else c :: rest

/-- Value of one hexadecimal digit character, if it is one. -/
def hexVal (c : Nat) : Option Nat :=
  if 48 ≤ c && c ≤ 57 then some (c - 48)
  else if 97 ≤ c && c ≤ 102 then some (c - 87)
  else if 65 ≤ c && c ≤ 70 then some (c - 55)
  else none

/-- Value of a four-hexadecimal-digit group, if all four digits are ones. -/
def hex4 (a b c d : Nat) : Option Nat :=
  match hexVal a, hexVal b, hexVal c, hexVal d with
  | some x, some y, some z, some w => some (x * 4096 + y * 256 + z * 16 + w)
  | _, _, _, _ => none

/-- Prepends one decoded character to a string-parse result. -/
def consStr (c : Nat) :
    Option (List Nat × List Nat) → Option (List Nat × List Nat)
  | none => none
  | some (s, r) => some (c :: s, r)

/-- Lookahead after a decoded high surrogate, as done by py_scanstring:
when the input continues with a backslash-u group holding a valid low
surrogate, the pair joins into one code point and the six characters are
consumed; a valid group that is not a low surrogate leaves the lone high
surrogate and consumes nothing; a malformed group is an error.  Returns
the code point to emit and how many characters were consumed. -/
def lowSurScan (code : Nat) : List Nat → Option (Nat × Nat)
  | 92 :: 117 :: a2 :: b2 :: c3 :: d2 :: _ =>
    match hex4 a2 b2 c3 d2 with
    | none => none
    | some code2 =>
      if 56320 ≤ code2 && code2 ≤ 57343 then
        some (65536 + (code - 55296) * 1024 + (code2 - 56320), 6)
      else some (code, 0)
  | 92 :: 117 :: _ => none
  | _ => some (code, 0)

/-- Body of a JSON string literal as scanned by json.loads (strict mode,
py_scanstring): ends at an unescaped double quote, decodes the short
escapes, decodes backslash-u escapes including surrogate pairs, rejects
unescaped control characters and malformed escapes.  The fuel argument is
an artifact of the embedding: it falls by one per decoded character, so
any fuel above the input length behaves like the unbounded Python loop. -/
def parseStrBody : Nat → List Nat → Option (List Nat × List Nat)
  | 0, _ => none
  | _ + 1, [] => none
  | fuel + 1, c :: rest =>
    if c = 34 then some ([], rest)
    else if c = 92 then
      match rest with
      | [] => none
      | e :: r =>
        if e = 34 then consStr 34 (parseStrBody fuel r)
        else if e = 92 then consStr 92 (parseStrBody fuel r)
        else if e = 47 then consStr 47 (parseStrBody fuel r)
        else if e = 98 then consStr 8 (parseStrBody fuel r)
        else if e = 102 then consStr 12 (parseStrBody fuel r)
        else if e = 110 then consStr 10 (parseStrBody fuel r)
        else if e = 114 then consStr 13 (parseStrBody fuel r)
        else if e = 116 then consStr 9 (parseStrBody fuel r)
        else if e = 117 then
          match r with
          | a :: b :: c2 :: d :: r2 =>
            match hex4 a b c2 d with
            | none => none
            | some code =>
              if 55296 ≤ code && code ≤ 56319 then
                match lowSurScan code r2 with
                | none => none
                | some (cp, n) => consStr cp (parseStrBody fuel (r2.drop n))
              else consStr code (parseStrBody fuel r2)
          | _ => none
        else none
    else if c < 32 then none
    else consStr c (parseStrBody fuel rest)

/-- Digit character in the ASCII range of 0 to 9. -/
def isJsonDigit (c : Nat) : Bool := 48 ≤ c && c ≤ 57

/-- Splits the longest leading run of digit characters off a list. -/
def takeDigits : List Nat → List Nat × List Nat
  | [] => ([], [])
  | c :: rest =>
    if isJsonDigit c then
      ((takeDigits rest).1.cons c, (takeDigits rest).2)
    else ([], c :: rest)

/-- Value of a most-significant-first digit-character list. -/
def decimalValue (ds : List Nat) : Nat :=
  ds.foldl (fun acc c => acc * 10 + (c - 48)) 0

/-- Integer literal parse: an optional minus sign then at least one digit.
Fraction and exponent parts (floats) are outside the embedding. -/
def parseNumber : List Nat → Option (Int × List Nat)
  | [] => none
  | c :: rest =>
    if c = 45 then
      if (takeDigits rest).1 = [] then none
      else some (-(decimalValue (takeDigits rest).1 : Int), (takeDigits rest).2)
    else
      if (takeDigits (c :: rest)).1 = [] then none
      else some ((decimalValue (takeDigits (c :: rest)).1 : Int),
        (takeDigits (c :: rest)).2)

/-- Returns the rest of the input when it starts with the given literal. -/
def matchLit : List Nat → List Nat → Option (List Nat)
  | [], input => some input
  | _ :: _, [] => none
  | l :: ls, c :: cs => if c = l then matchLit ls cs else none

/-- One insertion into a Python dict built from parsed pairs: an existing
key keeps its position and takes the new value, a new key is appended. -/
def dictInsert : List (List Nat × JVal) → List Nat → JVal → List (List Nat × JVal)
  | [], k, v => [(k, v)]
  | (k0, v0) :: rest, k, v =>
    if k0 = k then (k0, v) :: rest else (k0, v0) :: dictInsert rest k v

/-- The dict json.loads builds from the member pairs of one object, in
order: later duplicate keys overwrite earlier values in place. -/
def pyDict (pairs : List (List Nat × JVal)) : List (List Nat × JVal) :=
  pairs.foldl (fun m p => dictInsert m p.1 p.2) []

mutual

/-- Value scanner of json.loads: skips leading whitespace, then
dispatches on the first character to a string literal, a list, an object,
one of the three constant literals, or an integer literal.  The fuel
argument bounds the nesting depth; every nested scan consumes fuel. -/
def parseVal : Nat → List Nat → Option (JVal × List Nat)
  | 0, _ => none
  | fuel + 1, input =>
    match skipWs input with
    | [] => none
    | c :: rest =>
      if c = 34 then
        match parseStrBody (rest.length + 1) rest with
        | none => none
        | some (s, r) => some (JVal.str s, r)
      else if c = 91 then
        match skipWs rest with
        | [] => none
        | d :: rest2 =>
          if d = 93 then some (JVal.arr [], rest2)
          else
            match parseItems fuel (d :: rest2) with
            | none => none
            | some (xs, r) => some (JVal.arr xs, r)
      else if c = 123 then
        match skipWs rest with
        | [] => none
        | d :: rest2 =>
          if d = 125 then some (JVal.obj [], rest2)
          else
            match parseMembers fuel (d :: rest2) with
            | none => none
            | some (kvs, r) => some (JVal.obj (pyDict kvs), r)
      else
        match matchLit [116, 114, 117, 101] (c :: rest) with
        | some r => some (JVal.bool true, r)
        | none =>
          match matchLit [102, 97, 108, 115, 101] (c :: rest) with
          | some r => some (JVal.bool false, r)
          | none =>
            match matchLit [110, 117, 108, 108] (c :: rest) with
            | some r => some (JVal.null, r)
            | none =>
              match parseNumber (c :: rest) with
              | none => none
              | some (n, r) => some (JVal.int n, r)

/-- Item loop of the list scanner: one value, then after whitespace either
a comma and further items or the closing square bracket. -/
def parseItems : Nat → List Nat → Option (List JVal × List Nat)
  | 0, _ => none
  | fuel + 1, input =>
    match parseVal fuel input with
    | none => none
    | some (v, rest) =>
      match skipWs rest with
      | [] => none
      | d :: rest2 =>
        if d = 44 then
          match parseItems fuel rest2 with
          | none => none
          | some (xs, r) => some (v :: xs, r)
        else if d = 93 then some ([v], rest2)
        else none

/-- Member loop of the object scanner: a double-quoted key, whitespace, a
colon, a value, then after whitespace either a comma and further members or
the closing curly bracket. -/
def parseMembers : Nat → List Nat → Option (List (List Nat × JVal) × List Nat)
  | 0, _ => none
  | fuel + 1, input =>
    match skipWs input with
    | [] => none
    | c :: rest =>
      if c = 34 then
        match parseStrBody (rest.length + 1) rest with
        | none => none
        | some (k, rest2) =>
          match skipWs rest2 with
          | [] => none
          | d :: rest3 =>
            if d = 58 then
              match parseVal fuel rest3 with
              | none => none
              | some (v, rest4) =>
                match skipWs rest4 with
                | [] => none
                | d2 :: rest5 =>
                  if d2 = 44 then
                    match parseMembers fuel rest5 with
                    | none => none
                    | some (kvs, r) => some ((k, v) :: kvs, r)
                  else if d2 = 125 then some ([(k, v)], rest5)
                  else none
            else none
      else none

end

/-- json.loads on text: scan one value with nesting fuel bounded by the
input length, then require only whitespace to remain. -/
def loadsText (s : List Nat) : Option JVal :=
  match parseVal (s.length + 1) s with
  | none => none
  | some (v, rest) => if skipWs rest = [] then some v else none

/-- UTF-8 encoding of one unicode code point (str.encode per character). -/
def utf8EncodeChar (c : Nat) : List Nat :=
  if c < 128 then [c]
  else if c < 2048 then [192 + c / 64, 128 + c % 64]
  else if c < 65536 then [224 + c / 4096, 128 + c / 64 % 64, 128 + c % 64]
  else [240 + c / 262144, 128 + c / 4096 % 64, 128 + c / 64 % 64, 128 + c % 64]

/-- UTF-8 encoding of a string, as performed by str.encode(). -/
def utf8Encode (s : List Nat) : List Nat :=
  s.foldr (fun c acc => utf8EncodeChar c ++ acc) []

/-- Prepends one decoded code point to a decode result. -/
def consB (c : Nat) : Option (List Nat) → Option (List Nat)
  | none => none
  | some s => some (c :: s)

/-- One scalar of UTF-8 decoding as performed by bytes.decode(): an ASCII
byte passes through, multi-byte sequences are validated (continuation
ranges, no overlong forms, no surrogates, nothing beyond 0x10ffff).
Returns the code point and the remaining bytes. -/
def utf8DecodeOne : List Nat → Option (Nat × List Nat)
  | [] => none
  | b :: rest =>
    if b < 128 then some (b, rest)
    else if 194 ≤ b && b ≤ 223 then
      match rest with
      | b2 :: r =>
        if 128 ≤ b2 && b2 ≤ 191 then
          some ((b - 192) * 64 + (b2 - 128), r)
        else none
      | _ => none
    else if 224 ≤ b && b ≤ 239 then
      match rest with
      | b2 :: b3 :: r =>
        if ((b = 224 && 160 ≤ b2 && b2 ≤ 191) ||
            (225 ≤ b && b ≤ 236 && 128 ≤ b2 && b2 ≤ 191) ||
            (b = 237 && 128 ≤ b2 && b2 ≤ 159) ||
            (238 ≤ b && 128 ≤ b2 && b2 ≤ 191)) &&
            (128 ≤ b3 && b3 ≤ 191) then
          some ((b - 224) * 4096 + (b2 - 128) * 64 + (b3 - 128), r)
        else none
      | _ => none
    else if 240 ≤ b && b ≤ 244 then
      match rest with
      | b2 :: b3 :: b4 :: r =>
        if ((b = 240 && 144 ≤ b2 && b2 ≤ 191) ||
            (241 ≤ b && b ≤ 243 && 128 ≤ b2 && b2 ≤ 191) ||
            (b = 244 && 128 ≤ b2 && b2 ≤ 143)) &&
            (128 ≤ b3 && b3 ≤ 191) && (128 ≤ b4 && b4 ≤ 191) then
          some ((b - 240) * 262144 + (b2 - 128) * 4096 +
            (b3 - 128) * 64 + (b4 - 128), r)
        else none
      | _ => none
    else none

/-- UTF-8 decoding of a whole byte list (bytes.decode()): one scalar at a
time until the input is exhausted.  The fuel argument is an artifact of
the embedding: it falls by one per decoded scalar, so any fuel at or above
the input length behaves like the unbounded Python loop. -/
def utf8Decode : Nat → List Nat → Option (List Nat)
  | _, [] => some []
  | 0, _ :: _ => none
  | fuel + 1, b :: rest =>
    match utf8DecodeOne (b :: rest) with
    | none => none
    | some (c, r) => consB c (utf8Decode fuel r)

/-- A code point Python's json round trip can carry: in unicode range and
not a surrogate (a lone surrogate in the payload can pair up with its
neighbour while decoding and break the round trip). -/
def validCodepoint (c : Nat) : Bool :=
  c < 1114112 && !(55296 ≤ c && c < 57344)

/-- Well-formed payload string: every code point valid. -/
def wfString (s : List Nat) : Bool := s.all validCodepoint

/-- Pairwise-distinct keys at the top level of one object. -/
def nodupKeys : List (List Nat × JVal) → Bool
  | [] => true
  | (k, _) :: kvs => !(kvs.any (fun p => p.1 = k)) && nodupKeys kvs

mutual

/-- Payloads inside the JSON data model, on which the default codec is
invertible: no tuples, well-formed strings, and objects with distinct
keys, recursively. -/
def wf : JVal → Bool
  | JVal.null => true
  | JVal.bool _ => true
  | JVal.int _ => true
  | JVal.str s => wfString s
  | JVal.arr xs => wfItems xs
  | JVal.tup _ => false
  | JVal.obj kvs => wfPairs kvs && nodupKeys kvs

/-- Well-formedness of every item of a list payload. -/
def wfItems : List JVal → Bool
  | [] => true
  | x :: xs => wf x && wfItems xs

/-- Well-formedness of every key and value of an object payload. -/
def wfPairs : List (List Nat × JVal) → Bool
  | [] => true
  | (k, v) :: kvs => wfString k && wf v && wfPairs kvs

end

mutual

/-- Nesting-depth measure of a payload, used to discharge the parser fuel. -/
def jsize : JVal → Nat
  | JVal.arr xs => jsizeItems xs + 1
  | JVal.tup xs => jsizeItems xs + 1
  | JVal.obj kvs => jsizeMembers kvs + 1
  | _ => 1

/-- Fuel needed by the item loop for the given items. -/
def jsizeItems : List JVal → Nat
  | [] => 0
  | x :: xs => jsize x + jsizeItems xs + 1

/-- Fuel needed by the member loop for the given members. -/
def jsizeMembers : List (List Nat × JVal) → Nat
  | [] => 0
  | (_, v) :: kvs => jsize v + jsizeMembers kvs + 1

end

/-- AsyncJsonQueue.serialize: json.dumps(body, **kwargs). The only keyword
option used by the source is ensure_ascii (json.dumps defaults it to true;
put passes false). -/
def serialize (body : JVal) (ensure_ascii : Bool) : List Nat :=
  dumps ensure_ascii body

/-- AsyncJsonQueue.deserialize: json.loads(body.decode()) on a bytes
payload. -/
def deserialize (body : List Nat) : Option JVal :=
  match utf8Decode (body.length + 1) body with
  | none => none
  | some s => loadsText s

/-! ## Consumption Handler (_ConsumptionHandler, async_queue.py lines
58-109)

A coroutine that can raise is embedded as a function into Except.  The
keyword context passed from handle_message to _handle_callback is the
single binding msg=msg, embedded as the message value itself. -/

/-- The delegate hooks reached by the consumption handler
(AsyncQueueConsumerDelegate): the mandatory message handler and the error
hook it falls back to. -/
structure Delegate (μ ε ρ : Type) where
  on_queue_message : μ → Except ε ρ
  on_message_handle_error : ε → μ → Except ε ρ

/-- Delivery envelope handed over by the channel collaborator; only the
delivery tag is consulted by the handler. -/
structure Envelope where
  delivery_tag : Nat

/-- Modelled from the spec: the easyqueue.message.AMQPMessage envelope
(its module is not part of the embedded source).  Section 3 describes it
as the record pairing the raw payload with delivery metadata, the owning
channel reference, the source queue name and the deserialization function,
which matches the constructor call in handle_message. -/
structure AMQPMessage where
  channel : Nat
  envelope : Envelope
  delivery_tag : Nat
  queue_name : List Nat
  serialized_data : List Nat
  deserialization_method : List Nat → Option JVal

/-- _ConsumptionHandler._handle_callback: awaits the callback under
try/except; an exception is redirected to the delegate's
on_message_handle_error with handler_error = the exception and the same
keyword context.  The second component logs every invocation of the error
hook with its arguments. -/
def handle_callback {μ ε ρ : Type} (d : Delegate μ ε ρ)
    (callback : μ → Except ε ρ) (kwargs : μ) :
    Except ε ρ × List (ε × μ) :=
  match callback kwargs with
  | Except.ok r => (Except.ok r, [])
  | Except.error e => (d.on_message_handle_error e kwargs, [(e, kwargs)])

/-- A task created by loop.create_task: the broker-facing callback holds
only this handle; the wrapped computation runs independently and is never
awaited by handle_message. -/
structure SpawnedTask (σ : Type) where
  run : σ

/-- The message built by _ConsumptionHandler.handle_message from one
delivery. -/
def builtMessage (queue_name : List Nat) (channel : Nat)
    (body : List Nat) (envelope : Envelope) : AMQPMessage :=
  ⟨channel, envelope, envelope.delivery_tag, queue_name, body, deserialize⟩

/-- _ConsumptionHandler.handle_message: builds the AMQPMessage for the
delivery, chains the delegate's on_queue_message through _handle_callback
with keyword context msg=msg, and returns the spawned task handle without
awaiting it.  Its return type carries no exception: nothing the handler
task raises reaches the broker-facing callback. -/
def handle_message {ε ρ : Type} (d : Delegate AMQPMessage ε ρ)
    (queue_name : List Nat) (channel : Nat) (body : List Nat)
    (envelope : Envelope) :
    SpawnedTask (Except ε ρ × List (ε × AMQPMessage)) :=
  ⟨handle_callback d d.on_queue_message (builtMessage queue_name channel body envelope)⟩

/-! ## Queue Client facade (AsyncJsonQueue, async_queue.py lines 112-261) -/

/-- Errors the facade can raise. -/
inductive PyError where
  | valueError : String → PyError
  | connectionError : String → PyError

/-- Whether a raised error is a ValueError. -/
def isValueError {α : Type} : Except PyError α → Bool
  | Except.error (PyError.valueError _) => true
  | _ => false

/-- Python truthiness of a payload value, deciding the "if data" tests in
put: None, False, 0, the empty string and empty containers are falsy. -/
def truthy : JVal → Bool
  | JVal.null => false
  | JVal.bool b => b
  | JVal.int n => !(n = 0)
  | JVal.str s => !s.isEmpty
  | JVal.arr xs => !xs.isEmpty
  | JVal.tup xs => !xs.isEmpty
  | JVal.obj kvs => !kvs.isEmpty

/-- Truthiness of the optional data argument (default None). -/
def dataTruthy : Option JVal → Bool
  | none => false
  | some v => truthy v

/-- The serialized_data argument of put: Union of str and bytes. -/
inductive StrOrBytes where
  | str : List Nat → StrOrBytes
  | bytes : List Nat → StrOrBytes

/-- Python truthiness of a str-or-bytes value: non-emptiness. -/
def sobTruthy : StrOrBytes → Bool
  | StrOrBytes.str s => !s.isEmpty
  | StrOrBytes.bytes b => !b.isEmpty

/-- The isinstance bytes test and encode step of put: a str is UTF-8
encoded, bytes pass through. -/
def sobToBytes : StrOrBytes → List Nat
  | StrOrBytes.str s => utf8Encode s
  | StrOrBytes.bytes b => b

/-- State of one AsyncJsonQueue instance that the embedded operations
read: the constructor-set attributes plus the connection's observable
state (is_connected and the current channel, both Modelled from the spec
section 3, Connection State, as the AMQPConnection module is not part of
the embedded source: a boolean connected status and a channel reference
that is absent before the first connect). -/
structure AsyncJsonQueueState where
  prefetch_count : Int
  max_message_length : Int
  seconds_between_conn_retry : Nat
  is_running : Bool
  connected : Bool
  channel : Option Nat
  hasDelegate : Bool

/-- AsyncJsonQueue.__init__ (lines 115-163): rejects supplying both a
delegate and a delegate class, stores prefetch_count unvalidated, rejects
a negative max_message_length, then builds the connection and finishes
with is_running = true.  The delegate arguments are embedded by their
presence. -/
def initQueue (delegate_class : Bool) (delegate : Bool)
    (prefetch_count : Int) (max_message_length : Int)
    (seconds_between_conn_retry : Nat) :
    Except PyError AsyncJsonQueueState :=
  if delegate && delegate_class then
    Except.error (PyError.valueError "Cant provide both delegate and delegate_class")
  else if max_message_length < 0 then
    Except.error (PyError.valueError "max_message_length must be a positive integer")
  else
    Except.ok
      { prefetch_count := prefetch_count
        max_message_length := max_message_length
        seconds_between_conn_retry := seconds_between_conn_retry
        is_running := true
        connected := false
        channel := none
        hasDelegate := delegate || delegate_class }

/-- One channel.publish call with its arguments. -/
structure PublishCall where
  payload : List Nat
  exchange_name : String
  routing_key : String

/-- Body of AsyncJsonQueue.put (lines 181-209), the part the
_ensure_connected decorator delegates to: rejects truthy data together
with truthy serialized_data, serializes truthy data with ensure_ascii
false, byte-encodes a str payload, and performs exactly one
channel.publish with the payload and the original routing key and
exchange.  The Except value is the raised error or the performed publish
call. -/
def put (_q : AsyncJsonQueueState) (routing_key : String) (data : Option JVal)
    (serialized_data : StrOrBytes) (exchange : String) :
    Except PyError PublishCall :=
  if dataTruthy data && sobTruthy serialized_data then
    Except.error (PyError.valueError "Only one of data or json should be specified")
  else
    let sd := match data with
      | some v => if truthy v then StrOrBytes.str (serialize v false) else serialized_data
      | none => serialized_data
    Except.ok { payload := sobToBytes sd, exchange_name := exchange,
                routing_key := routing_key }

/-- One channel.basic_qos call with its arguments. -/
structure BasicQosCall where
  prefetch_count : Int
  prefetch_size : Nat
  connection_global : Bool

/-- The channel calls and delegate notifications performed by one
successful consume, in order. -/
structure ConsumeTrace where
  before_start_queue : List Nat
  qos : BasicQosCall
  consume_queue : List Nat
  consume_consumer_tag_arg : String
  consumption_start_tag : String
  returned_tag : String

/-- Body of AsyncJsonQueue.consume (lines 211-252): notifies
on_before_start_consumption, configures basic_qos with the stored
prefetch_count (prefetch_size 0, connection_global false), registers the
handler via basic_consume under the caller-supplied consumer name, reads
the broker-assigned tag out of the reply, notifies on_consumption_start
with it and returns it.  The broker's reply is an oracle argument. -/
def consume (q : AsyncJsonQueueState) (queue_name : List Nat)
    (consumer_name : String) (broker_tag : String) : ConsumeTrace :=
  { before_start_queue := queue_name
    qos := { prefetch_count := q.prefetch_count, prefetch_size := 0,
             connection_global := false }
    consume_queue := queue_name
    consume_consumer_tag_arg := consumer_name
    consumption_start_tag := broker_tag
    returned_tag := broker_tag }

/-- One channel.basic_cancel call with its arguments. -/
structure BasicCancelCall where
  channel : Nat
  consumer_tag : String

/-- AsyncJsonQueue.stop_consumer (lines 254-261): not decorated with
_ensure_connected; raises ConnectionError when the connection has no
channel, otherwise performs basic_cancel on it.  (The source message
reads: Queue is not connected, did you forget to await connect.) -/
def stop_consumer (q : AsyncJsonQueueState) (consumer_tag : String) :
    Except PyError BasicCancelCall :=
  match q.channel with
  | none => Except.error (PyError.connectionError "Queue is not connected")
  | some ch => Except.ok { channel := ch, consumer_tag := consumer_tag }

/-- One channel.basic_client_ack call with its arguments. -/
structure BasicAckCall where
  channel : Nat
  delivery_tag : Nat

/-- Body of AsyncJsonQueue.ack (lines 171-173): acknowledges on the
message's own channel with its delivery tag. -/
def ack (msg : AMQPMessage) : BasicAckCall :=
  { channel := msg.channel, delivery_tag := msg.delivery_tag }

/-- One channel.basic_reject call with its arguments. -/
structure BasicRejectCall where
  channel : Nat
  delivery_tag : Nat
  requeue : Bool

/-- Body of AsyncJsonQueue.reject (lines 175-179): rejects on the
message's own channel with its delivery tag and the requeue flag
(defaulting to false at the call sites). -/
def reject (msg : AMQPMessage) (requeue : Bool) : BasicRejectCall :=
  { channel := msg.channel, delivery_tag := msg.delivery_tag,
    requeue := requeue }

/-- A concrete queue state used to instantiate theorems: prefetch 100, no
limits, fresh connection. -/
def sampleState : AsyncJsonQueueState :=
  { prefetch_count := 100, max_message_length := 0,
    seconds_between_conn_retry := 1, is_running := true, connected := false,
    channel := none, hasDelegate := false }

/-- A concrete payload exercising every constructor of the JSON data
model: an object with two distinct keys, a string with a quote, a
backslash, a non-ASCII character and a character beyond the basic
multilingual plane, plus null, bool and a negative int in a list. -/
def samplePayload : JVal :=
  JVal.obj [([97], JVal.str [34, 92, 233, 128512]),
    ([98], JVal.arr [JVal.null, JVal.bool true, JVal.int (-45)])]

/-- A concrete delegate whose message handler always raises 3 and whose
error hook returns the error it was given. -/
def failDelegate : Delegate AMQPMessage Nat Nat :=
  { on_queue_message := fun _ => Except.error 3,
    on_message_handle_error := fun e _ => Except.ok e }

/-- Input whose head could not extend a decimal literal: used to state
where the number scanner's maximal munch stops. -/
def noLeadingDigit : List Nat → Bool
  | [] => true
  | c :: _ => !isJsonDigit c

/-! ## Helper lemmas -/

/-- The loop performs one failing attempt per oracle failure, reporting
retry counts retries+1, retries+2, ... and sleeping the fixed interval each
time, then breaks on the first success. -/
theorem connectLoop_fail_run {ε : Type} (interval : Nat) :
    ∀ (es : List ε) (rest : List (Option ε)) (k : Nat),
      connectLoop interval (fun _ => true) false k
          (es.map Option.some ++ Option.none :: rest) =
        some (true, (List.range' (k + 1) es.length).zip es,
          List.replicate es.length interval) := by
  intro es
  induction es with
  | nil => intro rest k; simp [connectLoop]
  | cons e es ih =>
    intro rest k
    simp only [List.map_cons, List.cons_append]
    simp [connectLoop, ih rest (k + 1), List.range'_succ, List.replicate_succ]

/-- If the liveness flag stays true, the loop can only exit connected. -/
theorem connectLoop_connected_of_running {ε : Type} (interval : Nat)
    (running : Nat → Bool) (hrun : ∀ i, running i = true) :
    ∀ (attempts : List (Option ε)) (connected : Bool) (k : Nat)
      (c : Bool) (reports : List (Nat × ε)) (sleeps : List Nat),
      connectLoop interval running connected k attempts =
        some (c, reports, sleeps) → c = true := by
  intro attempts
  induction attempts with
  | nil =>
    intro connected k c reports sleeps h
    cases connected with
    | true =>
      simp [connectLoop, hrun k] at h
      exact h.1
    | false =>
      simp [connectLoop, hrun k] at h
  | cons a rest ih =>
    intro connected k c reports sleeps h
    cases connected with
    | true =>
      simp [connectLoop, hrun k] at h
      exact h.1
    | false =>
      simp only [connectLoop, hrun k, Bool.not_false, Bool.and_self, if_true] at h
      cases a with
      | none => simp at h; exact h.1
      | some e =>
        cases hrec : connectLoop interval running false (k + 1) rest with
        | none => rw [hrec] at h; simp at h
        | some triple =>
          obtain ⟨c', reports', sleeps'⟩ := triple
          rw [hrec] at h
          simp at h
          rw [← h.1]
          exact ih false (k + 1) c' reports' sleeps' hrec

/-- Clearing the liveness flag after a fixed number of failures makes the
loop exit disconnected: it consumes exactly the failures seen while the
flag was still set. -/
theorem connectLoop_exit_on_clear {ε : Type} (interval : Nat) :
    ∀ (es1 es2 : List ε) (rest : List (Option ε)) (k : Nat),
      connectLoop interval (fun i => decide (i < k + es1.length)) false k
          ((es1 ++ es2).map Option.some ++ rest) =
        some (false, (List.range' (k + 1) es1.length).zip es1,
          List.replicate es1.length interval) := by
  intro es1
  induction es1 with
  | nil =>
    intro es2 rest k
    cases hshape : List.map Option.some ([] ++ es2) ++ rest with
    | nil => simp [connectLoop]
    | cons b l => simp [connectLoop]
  | cons e es ih =>
    intro es2 rest k
    simp only [List.cons_append, List.map_cons]
    have harith : k + (e :: es).length = (k + 1) + es.length := by
      simp only [List.length_cons]; omega
    rw [harith]
    have hstep :
        connectLoop (ε := ε) interval (fun i => decide (i < k + 1 + es.length))
            false k (Option.some e :: (List.map Option.some (es ++ es2) ++ rest)) =
          match connectLoop interval (fun i => decide (i < k + 1 + es.length))
              false (k + 1) (List.map Option.some (es ++ es2) ++ rest) with
          | none => none
          | some (c, reports, sleeps) =>
            some (c, (k + 1, e) :: reports, interval :: sleeps) := by
      simp only [connectLoop]
      rw [if_pos (by simp; omega)]
    rw [hstep, ih es2 rest (k + 1)]
    simp [List.range'_succ, List.replicate_succ]

/-- Strict increase along a stride-one range. -/
theorem range'_pairwise_lt (s n : Nat) :
    List.Pairwise (· < ·) (List.range' s n) := by
  induction n generalizing s with
  | zero => simp
  | succ m ih =>
    rw [List.range'_succ]
    refine List.Pairwise.cons ?_ (ih (s + 1))
    intro b hb
    have := List.mem_range'_1.mp hb
    omega

/-- Hexadecimal digit characters decode back to their value. -/
theorem hexVal_hexDigitChar (n : Nat) (h : n < 16) :
    hexVal (hexDigitChar n) = some n := by
  unfold hexVal hexDigitChar
  by_cases h10 : n < 10
  · rw [if_pos h10, if_pos (by simp; omega)]
    simp
  · rw [if_neg h10, if_neg (by simp; omega), if_pos (by simp; omega)]
    simp

/-- Four hexadecimal digit characters of a value below 0x10000 decode back
to it. -/
theorem hex4_digits (c : Nat) (h : c < 65536) :
    hex4 (hexDigitChar (c / 4096 % 16)) (hexDigitChar (c / 256 % 16))
      (hexDigitChar (c / 16 % 16)) (hexDigitChar (c % 16)) = some c := by
  unfold hex4
  rw [hexVal_hexDigitChar _ (Nat.mod_lt _ (by omega)),
      hexVal_hexDigitChar _ (Nat.mod_lt _ (by omega)),
      hexVal_hexDigitChar _ (Nat.mod_lt _ (by omega)),
      hexVal_hexDigitChar _ (Nat.mod_lt _ (by omega))]
  simp
  omega

/-- Scanning one backslash-u escape that does not hold a high surrogate
yields its code and continues. -/
theorem parseStrBody_uEscape (fuel code : Nat) (tail : List Nat)
    (hcode : code < 65536) (hns : ¬(55296 ≤ code ∧ code ≤ 56319)) :
    parseStrBody (fuel + 1) (uEscape code ++ tail) =
      consStr code (parseStrBody fuel tail) := by
  unfold uEscape
  simp only [List.cons_append, List.nil_append]
  simp only [parseStrBody]
  norm_num
  rw [hex4_digits code hcode]
  simp only
  rw [if_neg (by simp; omega)]

/-- Scanning two adjacent backslash-u escapes holding a high and a low
surrogate joins them into one code point and continues after both. -/
theorem parseStrBody_surrogatePair (fuel hi lo : Nat) (tail : List Nat)
    (hhi1 : 55296 ≤ hi) (hhi2 : hi ≤ 56319) (hlo1 : 56320 ≤ lo)
    (hlo2 : lo ≤ 57343) :
    parseStrBody (fuel + 1) (uEscape hi ++ (uEscape lo ++ tail)) =
      consStr (65536 + (hi - 55296) * 1024 + (lo - 56320))
        (parseStrBody fuel tail) := by
  have h0 : (decide (55296 ≤ hi) && decide (hi ≤ 56319)) = true := by
    simp; omega
  have h1 : (decide (56320 ≤ lo) && decide (lo ≤ 57343)) = true := by
    simp; omega
  unfold uEscape
  simp only [List.cons_append, List.nil_append]
  simp only [parseStrBody]
  norm_num
  rw [hex4_digits hi (by omega)]
  simp only [lowSurScan]
  rw [hex4_digits lo (by omega)]
  simp [h0, h1]
  intro hx
  exact absurd (hx hhi1) (by omega)

/-- Scanning one escaped character: for a valid code point the scanner
undoes escapeChar, spends one unit of fuel and continues with the
remaining input. -/
theorem parseStrBody_escapeChar (ea : Bool) (c : Nat) (tail : List Nat)
    (fuel : Nat) (h : validCodepoint c = true) :
    parseStrBody (fuel + 1) (escapeChar ea c ++ tail) =
      consStr c (parseStrBody fuel tail) := by
  have hc : c < 1114112 ∧ (c < 55296 ∨ 57344 ≤ c) := by
    simp [validCodepoint] at h
    omega
  unfold escapeChar
  by_cases h34 : c = 34
  · subst h34; simp [parseStrBody]
  by_cases h92 : c = 92
  · subst h92; simp [parseStrBody]
  by_cases h8 : c = 8
  · subst h8; simp [parseStrBody]
  by_cases h9 : c = 9
  · subst h9; simp [parseStrBody]
  by_cases h10 : c = 10
  · subst h10; simp [parseStrBody]
  by_cases h12 : c = 12
  · subst h12; simp [parseStrBody]
  by_cases h13 : c = 13
  · subst h13; simp [parseStrBody]
  simp only [h34, h92, h8, h9, h10, h12, h13, if_false]
  by_cases hctl : c < 32
  · rw [if_pos hctl]
    exact parseStrBody_uEscape fuel c tail (by omega) (by omega)
  · rw [if_neg hctl]
    by_cases hbig : (ea && decide (126 < c)) = true
    · rw [if_pos hbig]
      by_cases hlow : c < 65536
      · rw [if_pos hlow]
        exact parseStrBody_uEscape fuel c tail hlow (by omega)
      · rw [if_neg hlow]
        have hdiv : (c - 65536) / 1024 ≤ 1023 := by
          have : c - 65536 < 1048576 := by omega
          omega
        have hmod : (c - 65536) % 1024 ≤ 1023 := by
          have := Nat.mod_lt (c - 65536) (show 0 < 1024 by omega)
          omega
        rw [List.append_assoc]
        rw [parseStrBody_surrogatePair fuel _ _ tail (by omega) (by omega)
          (by omega) (by omega)]
        have hjoin :
            65536 + (55296 + (c - 65536) / 1024 - 55296) * 1024 +
              (56320 + (c - 65536) % 1024 - 56320) = c := by
          have h1 : 55296 + (c - 65536) / 1024 - 55296 = (c - 65536) / 1024 := by
            omega
          have h2 : 56320 + (c - 65536) % 1024 - 56320 = (c - 65536) % 1024 := by
            omega
          rw [h1, h2]
          have h3 := Nat.div_add_mod (c - 65536) 1024
          omega
        rw [hjoin]
    · rw [if_neg hbig]
      simp only [List.cons_append, List.nil_append]
      simp only [parseStrBody]
      rw [if_neg (by omega), if_neg (by omega), if_neg (by omega)]

/-- Scanning the escaped body of a string literal up to the closing quote
recovers the original string and leaves the remaining input, for any fuel
above the string length. -/
theorem parseStrBody_escapeString (ea : Bool) (s : List Nat) :
    ∀ (rest : List Nat) (fuel : Nat), s.length + 1 ≤ fuel →
      wfString s = true →
      parseStrBody fuel (escapeString ea s ++ 34 :: rest) = some (s, rest) := by
  induction s with
  | nil =>
    intro rest fuel hfuel _
    match fuel, hfuel with
    | g + 1, _ => simp [escapeString, parseStrBody]
  | cons c cs ih =>
    intro rest fuel hfuel h
    have hc : validCodepoint c = true := by
      simp [wfString] at h
      simpa [validCodepoint] using h.1
    have hcs : wfString cs = true := by
      simp [wfString] at h ⊢
      exact fun x hx => h.2 x hx
    have hfold :
        escapeString ea (c :: cs) = escapeChar ea c ++ escapeString ea cs := by
      simp [escapeString]
    match fuel, hfuel with
    | g + 1, hf =>
      rw [hfold, List.append_assoc, parseStrBody_escapeChar ea c _ g hc,
        ih rest g (by simp at hf; omega) hcs]
      rfl

/-- Maximal munch of digit characters stops exactly where a non-digit (or
the end) begins. -/
theorem takeDigits_append (ds rest : List Nat)
    (h1 : ∀ d ∈ ds, isJsonDigit d = true) (h2 : noLeadingDigit rest = true) :
    takeDigits (ds ++ rest) = (ds, rest) := by
  induction ds with
  | nil =>
    cases rest with
    | nil => rfl
    | cons c l =>
      simp [noLeadingDigit] at h2
      simp [takeDigits, h2]
  | cons d ds ih =>
    have hd : isJsonDigit d = true := h1 d (by simp)
    simp only [List.cons_append, takeDigits, hd, if_true, List.append_eq]
    rw [ih (fun x hx => h1 x (by simp [hx]))]

/-- The structural digit helper agrees with Mathlib's digit function. -/
theorem natDigitsAux_eq_digits : ∀ fuel n : Nat, n ≤ fuel →
    natDigitsAux fuel n = Nat.digits 10 n := by
  intro fuel
  induction fuel with
  | zero =>
    intro n hn
    have h0 : n = 0 := by omega
    subst h0
    simp [natDigitsAux]
  | succ f ih =>
    intro n hn
    cases n with
    | zero => simp [natDigitsAux]
    | succ m =>
      rw [natDigitsAux]
      rw [Nat.digits_def' (by norm_num : (1 : ℕ) < 10) (Nat.succ_pos m)]
      congr 1
      have hdiv : (m + 1) / 10 < m + 1 := Nat.div_lt_self (Nat.succ_pos m) (by norm_num)
      exact ih ((m + 1) / 10) (by omega)

/-- Folding decimal digits most-significant-first computes the number. -/
theorem foldl_decimal (L : List Nat) :
    ∀ a : Nat, (L.reverse).foldl (fun acc d => acc * 10 + d) a =
      a * 10 ^ L.length + Nat.ofDigits 10 L := by
  induction L with
  | nil => intro a; simp
  | cons d L ih =>
    intro a
    simp only [List.reverse_cons, List.foldl_append, List.foldl_cons,
      List.foldl_nil]
    rw [ih a, Nat.ofDigits_cons, List.length_cons, pow_succ]
    ring

/-- The decimal rendering of a natural number parses back to it. -/
theorem decimalValue_natToDecimal (n : Nat) :
    decimalValue (natToDecimal n) = n := by
  unfold decimalValue natToDecimal
  by_cases h0 : n = 0
  · subst h0; simp
  · rw [if_neg h0, natDigitsAux_eq_digits n n le_rfl, ← List.map_reverse,
      List.foldl_map]
    simp only [Nat.add_sub_cancel]
    rw [foldl_decimal]
    simp [Nat.ofDigits_digits]

/-- Every character of a decimal rendering is a digit character. -/
theorem natToDecimal_digits (n : Nat) :
    ∀ d ∈ natToDecimal n, isJsonDigit d = true := by
  intro d hd
  unfold natToDecimal at hd
  by_cases h0 : n = 0
  · simp [h0] at hd
    simp [hd, isJsonDigit]
  · rw [if_neg h0, natDigitsAux_eq_digits n n le_rfl] at hd
    simp at hd
    obtain ⟨x, hx, rfl⟩ := hd
    have hlt : x < 10 := Nat.digits_lt_base (by norm_num) hx
    simp [isJsonDigit]
    omega

/-- Decimal renderings are never empty. -/
theorem natToDecimal_ne_nil (n : Nat) : natToDecimal n ≠ [] := by
  unfold natToDecimal
  by_cases h0 : n = 0
  · simp [h0]
  · rw [if_neg h0, natDigitsAux_eq_digits n n le_rfl]
    simp
    exact Nat.digits_ne_nil_iff_ne_zero.mpr h0

/-- The decimal rendering of a Python int parses back to it whenever the
following input cannot extend the literal. -/
theorem parseNumber_intToDecimal (n : Int) (rest : List Nat)
    (h : noLeadingDigit rest = true) :
    parseNumber (intToDecimal n ++ rest) = some (n, rest) := by
  have htd := takeDigits_append (natToDecimal n.natAbs) rest
    (natToDecimal_digits n.natAbs) h
  unfold intToDecimal
  by_cases hneg : n < 0
  · rw [if_pos hneg]
    simp only [List.cons_append, parseNumber, if_pos rfl]
    rw [htd]
    simp [natToDecimal_ne_nil, decimalValue_natToDecimal]
    rw [abs_of_neg hneg, neg_neg]
  · rw [if_neg hneg]
    obtain ⟨d, t, hdt⟩ : ∃ d t, natToDecimal n.natAbs = d :: t := by
      cases hnil : natToDecimal n.natAbs with
      | nil => exact absurd hnil (natToDecimal_ne_nil _)
      | cons d t => exact ⟨d, t, rfl⟩
    have hd : isJsonDigit d = true :=
      natToDecimal_digits _ d (by rw [hdt]; simp)
    have hd45 : ¬d = 45 := by
      simp [isJsonDigit] at hd
      omega
    rw [hdt]
    simp only [List.cons_append, parseNumber, hd45, if_false]
    rw [← List.cons_append, ← hdt, htd]
    simp [natToDecimal_ne_nil, decimalValue_natToDecimal]
    omega

/-- Whitespace skipping keeps a solid head in place. -/
theorem skipWs_not_ws (c : Nat) (l : List Nat)
    (h1 : c ≠ 32) (h2 : c ≠ 9) (h3 : c ≠ 10) (h4 : c ≠ 13) :
    skipWs (c :: l) = c :: l := by
  simp [skipWs, h1, h2, h3, h4]

/-- A leading space is transparent to the value scanner. -/
theorem parseVal_ws (fuel : Nat) (l : List Nat) :
    parseVal fuel (32 :: l) = parseVal fuel l := by
  cases fuel with
  | zero => rfl
  | succ g =>
    simp only [parseVal]
    rw [show skipWs (32 :: l) = skipWs l by simp [skipWs]]

/-- A leading space is transparent to the item scanner. -/
theorem parseItems_ws (fuel : Nat) (l : List Nat) :
    parseItems fuel (32 :: l) = parseItems fuel l := by
  cases fuel with
  | zero => rfl
  | succ g => simp only [parseItems, parseVal_ws]

/-- A leading space is transparent to the member scanner. -/
theorem parseMembers_ws (fuel : Nat) (l : List Nat) :
    parseMembers fuel (32 :: l) = parseMembers fuel l := by
  cases fuel with
  | zero => rfl
  | succ g =>
    simp only [parseMembers]
    rw [show skipWs (32 :: l) = skipWs l by simp [skipWs]]

/-- Inserting a fresh key into a dict appends it. -/
theorem dictInsert_append (m : List (List Nat × JVal)) (k : List Nat)
    (v : JVal) (h : ∀ p ∈ m, p.1 ≠ k) : dictInsert m k v = m ++ [(k, v)] := by
  induction m with
  | nil => rfl
  | cons p m ih =>
    obtain ⟨k0, v0⟩ := p
    have hk : k0 ≠ k := h (k0, v0) (by simp)
    simp only [dictInsert, hk, if_false]
    rw [ih (fun q hq => h q (by simp [hq]))]
    rfl

/-- Building a dict from pairwise-distinct keys keeps the pairs as they
are. -/
theorem pyDict_go (kvs : List (List Nat × JVal)) :
    ∀ acc, nodupKeys kvs = true →
      (∀ p ∈ kvs, ∀ q ∈ acc, q.1 ≠ p.1) →
      kvs.foldl (fun m p => dictInsert m p.1 p.2) acc = acc ++ kvs := by
  induction kvs with
  | nil => intro acc _ _; simp
  | cons p kvs ih =>
    intro acc hnd hdisj
    obtain ⟨k, v⟩ := p
    simp only [nodupKeys, Bool.and_eq_true, Bool.not_eq_true'] at hnd
    simp only [List.foldl_cons]
    rw [dictInsert_append acc k v (fun q hq => hdisj (k, v) (by simp) q hq)]
    rw [ih (acc ++ [(k, v)]) hnd.2 ?_]
    · simp
    · intro p hp q hq
      rcases List.mem_append.mp hq with hq1 | hq2
      · exact hdisj p (by simp [hp]) q hq1
      · have hq3 : q = (k, v) := by simpa using hq2
        subst hq3
        have := hnd.1
        simp only [List.any_eq_false] at this
        intro hcontra
        have := this p hp
        simp at this
        exact this (by rw [← hcontra])

/-- json.loads builds from distinct-keyed members exactly those members. -/
theorem pyDict_nodup (kvs : List (List Nat × JVal))
    (h : nodupKeys kvs = true) : pyDict kvs = kvs := by
  unfold pyDict
  rw [pyDict_go kvs [] h (by simp)]
  simp

/-- Every payload has positive nesting size. -/
theorem jsize_pos (v : JVal) : 1 ≤ jsize v := by
  cases v <;> simp [jsize]

/-- The nesting size is within one of the rendered length, so input-length
fuel always suffices for the scanner. -/
theorem jsize_le_dumps_len : ∀ bound : Nat,
    (∀ v : JVal, jsize v ≤ bound →
      jsize v ≤ (dumps true v).length + 1) ∧
    (∀ xs : List JVal, jsizeItems xs ≤ bound →
      jsizeItems xs ≤ (dumpsItemsTail true xs).length) ∧
    (∀ kvs : List (List Nat × JVal), jsizeMembers kvs ≤ bound →
      jsizeMembers kvs ≤ (dumpsMembersTail true kvs).length) := by
  intro bound
  induction bound with
  | zero =>
    refine ⟨?_, ?_, ?_⟩
    · intro v hv
      have := jsize_pos v
      omega
    · intro xs hxs
      cases xs with
      | nil => simp [jsizeItems]
      | cons x xs => simp [jsizeItems] at hxs
    · intro kvs hkvs
      cases kvs with
      | nil => simp [jsizeMembers]
      | cons kv kvs =>
        obtain ⟨k, v⟩ := kv
        simp [jsizeMembers] at hkvs
  | succ m ih =>
    obtain ⟨ihv, ihi, ihm⟩ := ih
    refine ⟨?_, ?_, ?_⟩
    · intro v hv
      cases v with
      | null => simp [jsize, dumps]
      | bool b => cases b <;> simp [jsize, dumps]
      | int n => simp [jsize]
      | str s => simp [jsize]
      | arr xs =>
        cases xs with
        | nil => simp [jsize, jsizeItems, dumps]
        | cons x xs =>
          simp only [jsize, jsizeItems] at hv ⊢
          have h1 := ihv x (by omega)
          have h2 := ihi xs (by omega)
          simp only [dumps, List.length_append, List.length_cons]
          omega
      | tup xs =>
        cases xs with
        | nil => simp [jsize, jsizeItems, dumps]
        | cons x xs =>
          simp only [jsize, jsizeItems] at hv ⊢
          have h1 := ihv x (by omega)
          have h2 := ihi xs (by omega)
          simp only [dumps, List.length_append, List.length_cons]
          omega
      | obj kvs =>
        cases kvs with
        | nil => simp [jsize, jsizeMembers, dumps]
        | cons kv kvs =>
          obtain ⟨k, v⟩ := kv
          simp only [jsize, jsizeMembers] at hv ⊢
          have h1 := ihv v (by omega)
          have h2 := ihm kvs (by omega)
          simp only [dumps, List.length_append, List.length_cons]
          omega
    · intro xs hxs
      cases xs with
      | nil => simp [jsizeItems]
      | cons x xs =>
        simp only [jsizeItems] at hxs ⊢
        have h1 := ihv x (by omega)
        have h2 := ihi xs (by omega)
        simp only [dumpsItemsTail, List.length_append, List.length_cons]
        omega
    · intro kvs hkvs
      cases kvs with
      | nil => simp [jsizeMembers]
      | cons kv kvs =>
        obtain ⟨k, v⟩ := kv
        simp only [jsizeMembers] at hkvs ⊢
        have h1 := ihv v (by omega)
        have h2 := ihm kvs (by omega)
        simp only [dumpsMembersTail, List.length_append, List.length_cons]
        omega

/-- Specialization: the scanner fuel chosen by loadsText covers any
rendered payload. -/
theorem jsize_le_dumps (v : JVal) : jsize v ≤ (dumps true v).length + 1 :=
  (jsize_le_dumps_len (jsize v)).1 v le_rfl

/-- Backslash-u escapes are pure ASCII. -/
theorem uEscape_ascii (c : Nat) : ∀ x ∈ uEscape c, x < 128 := by
  have hhex : ∀ m : Nat, m < 16 → hexDigitChar m < 128 := by
    intro m hm
    simp [hexDigitChar]
    split <;> omega
  intro x hx
  simp [uEscape] at hx
  rcases hx with h | h | h | h | h | h <;> subst h
  · omega
  · omega
  · exact hhex _ (Nat.mod_lt _ (by omega))
  · exact hhex _ (Nat.mod_lt _ (by omega))
  · exact hhex _ (Nat.mod_lt _ (by omega))
  · exact hhex _ (Nat.mod_lt _ (by omega))

/-- With ensure_ascii, escaped characters are pure ASCII. -/
theorem escapeChar_ascii (c : Nat) : ∀ x ∈ escapeChar true c, x < 128 := by
  intro x hx
  unfold escapeChar at hx
  by_cases h34 : c = 34
  · simp [h34] at hx; omega
  rw [if_neg h34] at hx
  by_cases h92 : c = 92
  · simp [h92] at hx; omega
  rw [if_neg h92] at hx
  by_cases h8 : c = 8
  · simp [h8] at hx; omega
  rw [if_neg h8] at hx
  by_cases h9 : c = 9
  · simp [h9] at hx; omega
  rw [if_neg h9] at hx
  by_cases h10 : c = 10
  · simp [h10] at hx; omega
  rw [if_neg h10] at hx
  by_cases h12 : c = 12
  · simp [h12] at hx; omega
  rw [if_neg h12] at hx
  by_cases h13 : c = 13
  · simp [h13] at hx; omega
  rw [if_neg h13] at hx
  by_cases hctl : c < 32
  · rw [if_pos hctl] at hx
    exact uEscape_ascii _ x hx
  rw [if_neg hctl] at hx
  by_cases hbig : (true && decide (126 < c)) = true
  · rw [if_pos hbig] at hx
    by_cases hlow : c < 65536
    · rw [if_pos hlow] at hx
      exact uEscape_ascii _ x hx
    · rw [if_neg hlow] at hx
      rcases List.mem_append.mp hx with h | h
      · exact uEscape_ascii _ x h
      · exact uEscape_ascii _ x h
  · rw [if_neg hbig] at hx
    simp at hx hbig
    omega

/-- With ensure_ascii, escaped string bodies are pure ASCII. -/
theorem escapeString_ascii (s : List Nat) :
    ∀ x ∈ escapeString true s, x < 128 := by
  induction s with
  | nil => intro x hx; simp [escapeString] at hx
  | cons c cs ih =>
    intro x hx
    have hfold : escapeString true (c :: cs) =
        escapeChar true c ++ escapeString true cs := by
      simp [escapeString]
    rw [hfold] at hx
    rcases List.mem_append.mp hx with h | h
    · exact escapeChar_ascii c x h
    · exact ih x h

/-- Decimal renderings of naturals are pure ASCII. -/
theorem natToDecimal_ascii (n : Nat) : ∀ x ∈ natToDecimal n, x < 128 := by
  intro x hx
  have := natToDecimal_digits n x hx
  simp [isJsonDigit] at this
  omega

/-- Decimal renderings of ints are pure ASCII. -/
theorem intToDecimal_ascii (n : Int) : ∀ x ∈ intToDecimal n, x < 128 := by
  intro x hx
  unfold intToDecimal at hx
  by_cases hneg : n < 0
  · rw [if_pos hneg] at hx
    simp at hx
    rcases hx with h | h
    · omega
    · exact natToDecimal_ascii _ x h
  · rw [if_neg hneg] at hx
    exact natToDecimal_ascii _ x hx

/-- With ensure_ascii, whole rendered payloads are pure ASCII. -/
theorem dumps_ascii_bound : ∀ bound : Nat,
    (∀ v : JVal, jsize v ≤ bound → ∀ x ∈ dumps true v, x < 128) ∧
    (∀ xs : List JVal, jsizeItems xs ≤ bound →
      ∀ x ∈ dumpsItemsTail true xs, x < 128) ∧
    (∀ kvs : List (List Nat × JVal), jsizeMembers kvs ≤ bound →
      ∀ x ∈ dumpsMembersTail true kvs, x < 128) := by
  have hstr : ∀ k : List Nat, ∀ x ∈ dumpsString true k, x < 128 := by
    intro k x hx
    unfold dumpsString at hx
    simp at hx
    rcases hx with h | h | h
    · omega
    · exact escapeString_ascii k x h
    · omega
  intro bound
  induction bound with
  | zero =>
    refine ⟨?_, ?_, ?_⟩
    · intro v hv
      have := jsize_pos v
      omega
    · intro xs hxs
      cases xs with
      | nil => intro x hx; simp [dumpsItemsTail] at hx
      | cons x xs => simp [jsizeItems] at hxs
    · intro kvs hkvs
      cases kvs with
      | nil => intro x hx; simp [dumpsMembersTail] at hx
      | cons kv kvs =>
        obtain ⟨k, v⟩ := kv
        simp [jsizeMembers] at hkvs
  | succ m ih =>
    obtain ⟨ihv, ihi, ihm⟩ := ih
    refine ⟨?_, ?_, ?_⟩
    · intro v hv x hx
      cases v with
      | null => simp [dumps] at hx; omega
      | bool b => cases b <;> simp [dumps] at hx <;> omega
      | int n =>
        simp only [dumps] at hx
        exact intToDecimal_ascii n x hx
      | str s =>
        simp only [dumps] at hx
        exact hstr s x hx
      | arr xs =>
        cases xs with
        | nil => simp [dumps] at hx; omega
        | cons y ys =>
          simp only [jsize, jsizeItems] at hv
          simp only [dumps] at hx
          rcases List.mem_cons.mp hx with h | hx2
          · omega
          rcases List.mem_append.mp hx2 with hx3 | h
          · rcases List.mem_append.mp hx3 with h | h
            · exact ihv y (by omega) x h
            · exact ihi ys (by omega) x h
          · simp at h
            omega
      | tup xs =>
        cases xs with
        | nil => simp [dumps] at hx; omega
        | cons y ys =>
          simp only [jsize, jsizeItems] at hv
          simp only [dumps] at hx
          rcases List.mem_cons.mp hx with h | hx2
          · omega
          rcases List.mem_append.mp hx2 with hx3 | h
          · rcases List.mem_append.mp hx3 with h | h
            · exact ihv y (by omega) x h
            · exact ihi ys (by omega) x h
          · simp at h
            omega
      | obj kvs =>
        cases kvs with
        | nil => simp [dumps] at hx; omega
        | cons kv kvs =>
          obtain ⟨k, v⟩ := kv
          simp only [jsize, jsizeMembers] at hv
          simp only [dumps] at hx
          rcases List.mem_cons.mp hx with h | hx2
          · omega
          rcases List.mem_append.mp hx2 with hx3 | h
          · rcases List.mem_append.mp hx3 with hx4 | h
            · rcases List.mem_append.mp hx4 with h | hx5
              · exact hstr k x h
              · rcases List.mem_cons.mp hx5 with h | hx6
                · omega
                rcases List.mem_cons.mp hx6 with h | h
                · omega
                · exact ihv v (by omega) x h
            · exact ihm kvs (by omega) x h
          · simp at h
            omega
    · intro xs hxs x hx
      cases xs with
      | nil => simp [dumpsItemsTail] at hx
      | cons y ys =>
        simp only [jsizeItems] at hxs
        simp only [dumpsItemsTail] at hx
        rcases List.mem_cons.mp hx with h | hx2
        · omega
        rcases List.mem_cons.mp hx2 with h | hx3
        · omega
        rcases List.mem_append.mp hx3 with h | h
        · exact ihv y (by omega) x h
        · exact ihi ys (by omega) x h
    · intro kvs hkvs x hx
      cases kvs with
      | nil => simp [dumpsMembersTail] at hx
      | cons kv kvs =>
        obtain ⟨k, v⟩ := kv
        simp only [jsizeMembers] at hkvs
        simp only [dumpsMembersTail] at hx
        rcases List.mem_cons.mp hx with h | hx2
        · omega
        rcases List.mem_cons.mp hx2 with h | hx3
        · omega
        rcases List.mem_append.mp hx3 with hx4 | h
        · rcases List.mem_append.mp hx4 with h | hx5
          · exact hstr k x h
          · rcases List.mem_cons.mp hx5 with h | hx6
            · omega
            rcases List.mem_cons.mp hx6 with h | h
            · omega
            · exact ihv v (by omega) x h
        · exact ihm kvs (by omega) x h

/-- Specialization of the ASCII bound to one payload. -/
theorem dumps_all_ascii (v : JVal) : ∀ x ∈ dumps true v, x < 128 :=
  (dumps_ascii_bound (jsize v)).1 v le_rfl

/-- UTF-8 encoding is the identity on ASCII strings. -/
theorem utf8Encode_ascii (s : List Nat) (h : ∀ c ∈ s, c < 128) :
    utf8Encode s = s := by
  induction s with
  | nil => rfl
  | cons c cs ih =>
    have hc : c < 128 := h c (by simp)
    have hfold : utf8Encode (c :: cs) = utf8EncodeChar c ++ utf8Encode cs := rfl
    rw [hfold, ih (fun x hx => h x (by simp [hx]))]
    simp [utf8EncodeChar, hc]

/-- UTF-8 decoding undoes the identity embedding of ASCII strings. -/
theorem utf8Decode_ascii (s : List Nat) (h : ∀ c ∈ s, c < 128) :
    ∀ fuel : Nat, s.length ≤ fuel → utf8Decode fuel s = some s := by
  induction s with
  | nil => intro fuel _; cases fuel <;> rfl
  | cons c cs ih =>
    intro fuel hfuel
    have hc : c < 128 := h c (by simp)
    match fuel, hfuel with
    | g + 1, hf =>
      simp only [utf8Decode]
      rw [show utf8DecodeOne (c :: cs) = some (c, cs) by
        simp [utf8DecodeOne, hc]]
      simp only
      rw [ih (fun x hx => h x (by simp [hx])) g (by simp at hf; omega)]
      rfl

/-- Escaping never shortens: one escaped character takes at least one
output character. -/
theorem escapeChar_length (ea : Bool) (c : Nat) :
    1 ≤ (escapeChar ea c).length := by
  unfold escapeChar
  by_cases h34 : c = 34
  · simp [h34]
  rw [if_neg h34]
  by_cases h92 : c = 92
  · simp [h92]
  rw [if_neg h92]
  by_cases h8 : c = 8
  · simp [h8]
  rw [if_neg h8]
  by_cases h9 : c = 9
  · simp [h9]
  rw [if_neg h9]
  by_cases h10 : c = 10
  · simp [h10]
  rw [if_neg h10]
  by_cases h12 : c = 12
  · simp [h12]
  rw [if_neg h12]
  by_cases h13 : c = 13
  · simp [h13]
  rw [if_neg h13]
  by_cases hctl : c < 32
  · simp [hctl, uEscape]
  rw [if_neg hctl]
  by_cases hbig : (ea && decide (126 < c)) = true
  · rw [if_pos hbig]
    by_cases hlow : c < 65536
    · simp [hlow, uEscape]
    · simp [hlow, uEscape]
  · rw [if_neg hbig]
    simp

/-- Escaping never shortens a string body. -/
theorem escapeString_length (ea : Bool) (s : List Nat) :
    s.length ≤ (escapeString ea s).length := by
  induction s with
  | nil => simp [escapeString]
  | cons c cs ih =>
    have hfold : escapeString ea (c :: cs) =
        escapeChar ea c ++ escapeString ea cs := by
      simp [escapeString]
    rw [hfold]
    simp only [List.length_append, List.length_cons]
    have := escapeChar_length ea c
    omega

/-- Heads of rendered integers: a minus sign or a digit. -/
theorem intToDecimal_head (n : Int) :
    ∃ d t, intToDecimal n = d :: t ∧ (d = 45 ∨ (48 ≤ d ∧ d ≤ 57)) := by
  unfold intToDecimal
  by_cases hneg : n < 0
  · rw [if_pos hneg]
    exact ⟨45, _, rfl, Or.inl rfl⟩
  · rw [if_neg hneg]
    obtain ⟨d, t, hdt⟩ : ∃ d t, natToDecimal n.natAbs = d :: t := by
      cases hnil : natToDecimal n.natAbs with
      | nil => exact absurd hnil (natToDecimal_ne_nil _)
      | cons d t => exact ⟨d, t, rfl⟩
    have hd := natToDecimal_digits n.natAbs d (by rw [hdt]; simp)
    simp [isJsonDigit] at hd
    exact ⟨d, t, hdt, Or.inr hd⟩

/-- Every rendered payload starts with a solid character: not whitespace
and not a closing bracket. -/
theorem dumps_head (ea : Bool) (v : JVal) :
    ∃ d t, dumps ea v = d :: t ∧ d ≠ 32 ∧ d ≠ 9 ∧ d ≠ 10 ∧ d ≠ 13 ∧
      d ≠ 93 ∧ d ≠ 125 := by
  cases v with
  | null =>
    exact ⟨110, _, rfl, by omega, by omega, by omega, by omega, by omega,
      by omega⟩
  | bool b =>
    cases b with
    | false =>
      exact ⟨102, _, rfl, by omega, by omega, by omega, by omega, by omega,
        by omega⟩
    | true =>
      exact ⟨116, _, rfl, by omega, by omega, by omega, by omega, by omega,
        by omega⟩
  | int n =>
    obtain ⟨d, t, hdt, hd⟩ := intToDecimal_head n
    exact ⟨d, t, hdt, by omega, by omega, by omega, by omega, by omega,
      by omega⟩
  | str s =>
    exact ⟨34, _, rfl, by omega, by omega, by omega, by omega, by omega,
      by omega⟩
  | arr xs =>
    cases xs with
    | nil =>
      exact ⟨91, _, rfl, by omega, by omega, by omega, by omega, by omega,
        by omega⟩
    | cons y ys =>
      exact ⟨91, _, rfl, by omega, by omega, by omega, by omega, by omega,
        by omega⟩
  | tup xs =>
    cases xs with
    | nil =>
      exact ⟨91, _, rfl, by omega, by omega, by omega, by omega, by omega,
        by omega⟩
    | cons y ys =>
      exact ⟨91, _, rfl, by omega, by omega, by omega, by omega, by omega,
        by omega⟩
  | obj kvs =>
    cases kvs with
    | nil =>
      exact ⟨123, _, rfl, by omega, by omega, by omega, by omega, by omega,
        by omega⟩
    | cons kv kvs =>
      obtain ⟨k, v⟩ := kv
      exact ⟨123, _, rfl, by omega, by omega, by omega, by omega, by omega,
        by omega⟩

/-- Main inversion: scanning a rendered payload (with ensure_ascii) yields
it back, consuming exactly its text, for any fuel at or above its nesting
size.  The three parts cover the value, item and member scanners. -/
theorem parse_dumps_main : ∀ fuel : Nat,
    (∀ (v : JVal) (rest : List Nat), wf v = true → jsize v ≤ fuel →
      noLeadingDigit rest = true →
      parseVal fuel (dumps true v ++ rest) = some (v, rest)) ∧
    (∀ (x : JVal) (xs : List JVal) (rest : List Nat), wf x = true →
      wfItems xs = true → jsize x + jsizeItems xs + 1 ≤ fuel →
      parseItems fuel
          (dumps true x ++ (dumpsItemsTail true xs ++ 93 :: rest)) =
        some (x :: xs, rest)) ∧
    (∀ (k : List Nat) (v : JVal) (kvs : List (List Nat × JVal))
      (rest : List Nat), wfString k = true → wf v = true →
      wfPairs kvs = true → jsize v + jsizeMembers kvs + 1 ≤ fuel →
      parseMembers fuel
          (34 :: (escapeString true k ++ 34 :: 58 :: 32 ::
            (dumps true v ++ (dumpsMembersTail true kvs ++ 125 :: rest)))) =
        some ((k, v) :: kvs, rest)) := by
  intro fuel
  induction fuel with
  | zero =>
    refine ⟨?_, ?_, ?_⟩
    · intro v rest _ hsz _
      have := jsize_pos v
      omega
    · intro x xs rest _ _ hsz
      omega
    · intro k v kvs rest _ _ _ hsz
      omega
  | succ g ih =>
    obtain ⟨ihv, ihi, ihm⟩ := ih
    refine ⟨?_, ?_, ?_⟩
    · intro v rest hwf hsz hnld
      cases v with
      | null =>
        simp [dumps, parseVal, skipWs, matchLit]
      | bool b =>
        cases b with
        | true => simp [dumps, parseVal, skipWs, matchLit]
        | false => simp [dumps, parseVal, skipWs, matchLit]
      | int n =>
        obtain ⟨d, t, hdt, hd⟩ := intToDecimal_head n
        have hds : dumps true (JVal.int n) = intToDecimal n := rfl
        rw [hds, hdt]
        simp only [List.cons_append]
        simp only [parseVal]
        rw [skipWs_not_ws d _ (by omega) (by omega) (by omega) (by omega)]
        simp only
        rw [if_neg (by omega), if_neg (by omega), if_neg (by omega)]
        rw [show matchLit [116, 114, 117, 101] (d :: (t ++ rest)) = none by
          simp only [matchLit]; rw [if_neg (by omega)]]
        rw [show matchLit [102, 97, 108, 115, 101] (d :: (t ++ rest)) = none by
          simp only [matchLit]; rw [if_neg (by omega)]]
        rw [show matchLit [110, 117, 108, 108] (d :: (t ++ rest)) = none by
          simp only [matchLit]; rw [if_neg (by omega)]]
        simp only
        rw [← List.cons_append, ← hdt, parseNumber_intToDecimal n rest hnld]
      | str s =>
        have hwfs : wfString s = true := by simpa [wf] using hwf
        have hds : dumps true (JVal.str s) =
            34 :: (escapeString true s ++ [34]) := rfl
        rw [hds]
        simp only [List.cons_append, List.append_assoc, List.singleton_append,
          List.nil_append]
        simp only [parseVal]
        rw [show skipWs (34 :: (escapeString true s ++ 34 :: rest)) =
          34 :: (escapeString true s ++ 34 :: rest) by simp [skipWs]]
        simp only
        rw [if_pos trivial]
        rw [parseStrBody_escapeString true s rest _ (by
          simp only [List.length_append, List.length_cons]
          have := escapeString_length true s
          omega) hwfs]
      | arr xs =>
        cases xs with
        | nil => simp [dumps, parseVal, skipWs]
        | cons y ys =>
          have hwf2 : wf y = true ∧ wfItems ys = true := by
            simpa [wf, wfItems] using hwf
          have hsz2 : jsize y + jsizeItems ys + 1 ≤ g := by
            simp only [jsize, jsizeItems] at hsz
            omega
          have hds : dumps true (JVal.arr (y :: ys)) =
              91 :: (dumps true y ++ dumpsItemsTail true ys) ++ [93] := rfl
          rw [hds]
          obtain ⟨d, t, hdt, hw1, hw2, hw3, hw4, hb1, hb2⟩ := dumps_head true y
          simp only [List.cons_append, List.append_assoc,
            List.singleton_append, List.nil_append]
          simp only [parseVal]
          rw [show skipWs (91 :: (dumps true y ++
              (dumpsItemsTail true ys ++ 93 :: rest))) =
            91 :: (dumps true y ++ (dumpsItemsTail true ys ++ 93 :: rest)) by
            simp [skipWs]]
          simp only
          rw [if_neg (by omega), if_pos trivial]
          rw [hdt]
          simp only [List.cons_append]
          rw [skipWs_not_ws d _ hw1 hw2 hw3 hw4]
          simp only
          rw [if_neg hb1]
          rw [← List.cons_append, ← hdt]
          rw [ihi y ys rest hwf2.1 hwf2.2 hsz2]
      | tup xs =>
        simp [wf] at hwf
      | obj kvs =>
        cases kvs with
        | nil => simp [dumps, parseVal, skipWs]
        | cons kv kvs =>
          obtain ⟨k, v⟩ := kv
          have hwfall : wfString k = true ∧ wf v = true ∧
              wfPairs kvs = true ∧ nodupKeys ((k, v) :: kvs) = true := by
            have h1 := hwf
            simp only [wf, wfPairs, Bool.and_eq_true] at h1
            exact ⟨h1.1.1.1, h1.1.1.2, h1.1.2, h1.2⟩
          have hsz2 : jsize v + jsizeMembers kvs + 1 ≤ g := by
            simp only [jsize, jsizeMembers] at hsz
            omega
          have hds : dumps true (JVal.obj ((k, v) :: kvs)) =
              123 :: (dumpsString true k ++ 58 :: 32 :: dumps true v ++
                dumpsMembersTail true kvs) ++ [125] := rfl
          rw [hds]
          simp only [dumpsString, List.cons_append, List.append_assoc,
            List.singleton_append, List.nil_append]
          simp only [parseVal]
          rw [show skipWs (123 :: 34 :: (escapeString true k ++
              34 :: 58 :: 32 ::
              (dumps true v ++ (dumpsMembersTail true kvs ++ 125 :: rest)))) =
            123 :: 34 :: (escapeString true k ++ 34 :: 58 :: 32 ::
              (dumps true v ++ (dumpsMembersTail true kvs ++ 125 :: rest))) by
            simp [skipWs]]
          simp only
          rw [if_neg (by omega), if_neg (by omega), if_pos trivial]
          rw [show skipWs (34 :: (escapeString true k ++ 34 :: 58 :: 32 ::
              (dumps true v ++ (dumpsMembersTail true kvs ++ 125 :: rest)))) =
            34 :: (escapeString true k ++ 34 :: 58 :: 32 ::
              (dumps true v ++ (dumpsMembersTail true kvs ++ 125 :: rest))) by
            simp [skipWs]]
          simp only
          rw [if_neg (by omega)]
          rw [ihm k v kvs rest hwfall.1 hwfall.2.1 hwfall.2.2.1 hsz2]
          simp only
          rw [pyDict_nodup _ hwfall.2.2.2]
    · intro x xs rest hwx hwxs hsz
      have hnld2 : noLeadingDigit
          (dumpsItemsTail true xs ++ 93 :: rest) = true := by
        cases xs with
        | nil => simp [dumpsItemsTail, noLeadingDigit, isJsonDigit]
        | cons y ys =>
          simp [dumpsItemsTail, noLeadingDigit, isJsonDigit]
      simp only [parseItems]
      rw [ihv x _ hwx (by omega) hnld2]
      simp only
      cases xs with
      | nil =>
        simp only [dumpsItemsTail, List.nil_append]
        rw [show skipWs (93 :: rest) = 93 :: rest by simp [skipWs]]
        simp only
        rw [if_neg (by omega), if_pos trivial]
      | cons y ys =>
        have hwf2 : wf y = true ∧ wfItems ys = true := by
          simpa [wfItems] using hwxs
        have hsz2 : jsize y + jsizeItems ys + 1 ≤ g := by
          simp only [jsizeItems] at hsz
          have := jsize_pos x
          omega
        simp only [dumpsItemsTail, List.cons_append, List.append_assoc]
        rw [show skipWs (44 :: (32 :: (dumps true y ++
            (dumpsItemsTail true ys ++ 93 :: rest)))) =
          44 :: (32 :: (dumps true y ++
            (dumpsItemsTail true ys ++ 93 :: rest))) by simp [skipWs]]
        simp only
        rw [if_pos trivial]
        rw [parseItems_ws]
        rw [ihi y ys rest hwf2.1 hwf2.2 hsz2]
    · intro k v kvs rest hwk hwv hwkvs hsz
      have hnld2 : noLeadingDigit
          (dumpsMembersTail true kvs ++ 125 :: rest) = true := by
        cases kvs with
        | nil => simp [dumpsMembersTail, noLeadingDigit, isJsonDigit]
        | cons kv2 kvs2 =>
          obtain ⟨k2, v2⟩ := kv2
          simp [dumpsMembersTail, noLeadingDigit, isJsonDigit]
      simp only [parseMembers]
      rw [show skipWs (34 :: (escapeString true k ++ 34 :: 58 :: 32 ::
          (dumps true v ++ (dumpsMembersTail true kvs ++ 125 :: rest)))) =
        34 :: (escapeString true k ++ 34 :: 58 :: 32 ::
          (dumps true v ++ (dumpsMembersTail true kvs ++ 125 :: rest))) by
        simp [skipWs]]
      simp only
      rw [if_pos trivial]
      rw [parseStrBody_escapeString true k _ _ (by
        simp only [List.length_append, List.length_cons]
        have := escapeString_length true k
        omega) hwk]
      simp only
      rw [show skipWs (58 :: 32 :: (dumps true v ++
          (dumpsMembersTail true kvs ++ 125 :: rest))) =
        58 :: 32 :: (dumps true v ++
          (dumpsMembersTail true kvs ++ 125 :: rest)) by simp [skipWs]]
      simp only
      rw [if_pos trivial]
      rw [parseVal_ws]
      rw [ihv v _ hwv (by omega) hnld2]
      simp only
      cases kvs with
      | nil =>
        simp only [dumpsMembersTail, List.nil_append]
        rw [show skipWs (125 :: rest) = 125 :: rest by simp [skipWs]]
        simp only
        rw [if_neg (by omega), if_pos trivial]
      | cons kv2 kvs2 =>
        obtain ⟨k2, v2⟩ := kv2
        have hwf2 : wfString k2 = true ∧ wf v2 = true ∧
            wfPairs kvs2 = true := by
          have h1 := hwkvs
          simp only [wfPairs, Bool.and_eq_true] at h1
          exact ⟨h1.1.1, h1.1.2, h1.2⟩
        have hsz2 : jsize v2 + jsizeMembers kvs2 + 1 ≤ g := by
          simp only [jsizeMembers] at hsz
          have := jsize_pos v
          omega
        simp only [dumpsMembersTail, dumpsString, List.cons_append,
          List.append_assoc, List.singleton_append, List.nil_append]
        rw [show skipWs (44 :: (32 :: (34 :: (escapeString true k2 ++
            34 :: 58 :: 32 :: (dumps true v2 ++
              (dumpsMembersTail true kvs2 ++ 125 :: rest)))))) =
          44 :: (32 :: (34 :: (escapeString true k2 ++
            34 :: 58 :: 32 :: (dumps true v2 ++
              (dumpsMembersTail true kvs2 ++ 125 :: rest))))) by
          simp [skipWs]]
        simp only
        rw [if_pos trivial]
        rw [parseMembers_ws]
        rw [ihm k2 v2 kvs2 rest hwf2.1 hwf2.2.1 hwf2.2.2 hsz2]

/-- Scanning exactly a rendered well-formed payload gives it back. -/
theorem loadsText_dumps (v : JVal) (h : wf v = true) :
    loadsText (dumps true v) = some v := by
  unfold loadsText
  have hmain := (parse_dumps_main ((dumps true v).length + 1)).1 v [] h
    (jsize_le_dumps v) rfl
  rw [List.append_nil] at hmain
  rw [hmain]
  rfl

/-! ## Claims C1 to C5, C7 to C10 -/

/-- C1, counterexample: with the liveness flag cleared and the connection
disconnected, the guard invokes the wrapped operation body anyway, so an
operation body does proceed while connected-state is false. -/
theorem guard_runs_op_while_disconnected :
    ensure_connected 1 (fun _ => false) false ([] : List (Option Unit))
        (fun c => c) =
      some ⟨[], [], false, false⟩ := rfl

/-- C1, amended: for every guarded operation, as long as the liveness flag
stays true the guard only delegates to the wrapped operation body once the
connection reports connected. -/
theorem guard_delegates_connected_while_running {ε α : Type}
    (interval : Nat) (running : Nat → Bool) (connected : Bool)
    (attempts : List (Option ε)) (coro : Bool → α) (r : GuardResult ε α)
    (hrun : ∀ i, running i = true)
    (h : ensure_connected interval running connected attempts coro = some r) :
    r.connected_at_call = true := by
  unfold ensure_connected at h
  cases hrec : connectLoop interval running connected 0 attempts with
  | none => rw [hrec] at h; simp at h
  | some triple =>
    obtain ⟨c, reports, sleeps⟩ := triple
    rw [hrec] at h
    simp at h
    rw [← h]
    exact connectLoop_connected_of_running interval running hrun attempts
      connected 0 c reports sleeps hrec

/-- C1, witness for the amended theorem at a concrete input. -/
theorem guard_delegates_connected_while_running_witness :
    (∀ i : Nat, (fun _ : Nat => true) i = true) ∧
      (GuardResult.connected_at_call (⟨[(1, 0)], [7], true, 5⟩ : GuardResult Nat Nat)) = true :=
  ⟨fun _ => rfl,
    guard_delegates_connected_while_running 7 (fun _ => true) false
      [Option.some 0, Option.none] (fun _ => 5) ⟨[(1, 0)], [7], true, 5⟩
      (fun _ => rfl) rfl⟩

/-- C2: invoked with the liveness flag set and the connection disconnected,
the guard attempts connection in a loop, sleeping the fixed configured
interval on each failed attempt, and after the first success invokes the
wrapped operation with the original arguments, returning its result;
invoked while already connected it delegates immediately. -/
theorem guard_retries_until_success_then_delegates {ε α : Type}
    (interval : Nat) (es : List ε) (rest : List (Option ε))
    (attempts : List (Option ε)) (coro : Bool → α) :
    ensure_connected interval (fun _ => true) false
        (es.map Option.some ++ Option.none :: rest) coro =
      some ⟨(List.range' 1 es.length).zip es,
        List.replicate es.length interval, true, coro true⟩ ∧
    ensure_connected interval (fun _ => true) true attempts coro =
      some ⟨[], [], true, coro true⟩ := by
  constructor
  · unfold ensure_connected
    rw [connectLoop_fail_run interval es rest 0]
  · unfold ensure_connected
    cases attempts <;> simp [connectLoop]

/-- C3: once the liveness flag is cleared the retry loop exits even though
the connection was never established, and the wrapped operation is invoked
anyway against the disconnected state: with the flag cleared from the
start no attempt is made at all, and with the flag cleared after the
first es1.length checks the loop stops there regardless of the remaining
oracle. -/
theorem guard_invokes_op_after_liveness_cleared {ε α : Type}
    (interval : Nat) (connected : Bool) (attempts : List (Option ε))
    (es1 es2 : List ε) (rest : List (Option ε)) (coro : Bool → α) :
    ensure_connected interval (fun _ => false) connected attempts coro =
      some ⟨[], [], connected, coro connected⟩ ∧
    ensure_connected interval (fun i => decide (i < es1.length)) false
        ((es1 ++ es2).map Option.some ++ rest) coro =
      some ⟨(List.range' 1 es1.length).zip es1,
        List.replicate es1.length interval, false, coro false⟩ := by
  constructor
  · unfold ensure_connected
    cases attempts <;> simp [connectLoop]
  · unfold ensure_connected
    have h := connectLoop_exit_on_clear interval es1 es2 rest 0
    simp only [Nat.zero_add] at h
    rw [h]

/-- C4: during one guarded call made while disconnected, every failed
connection attempt produces exactly one report pairing the retry count
with that attempt's cause, and the reported retry counts are exactly
1, 2, 3, ..., strictly increasing. -/
theorem guard_reports_strictly_increasing {ε α : Type}
    (interval : Nat) (es : List ε) (rest : List (Option ε)) (coro : Bool → α) :
    (ensure_connected interval (fun _ => true) false
        (es.map Option.some ++ Option.none :: rest) coro).map
          GuardResult.reports =
      some ((List.range' 1 es.length).zip es) ∧
    ((List.range' 1 es.length).zip es).map Prod.fst =
      List.range' 1 es.length ∧
    List.Pairwise (· < ·) (List.range' 1 es.length) := by
  refine ⟨?_, ?_, range'_pairwise_lt 1 es.length⟩
  · unfold ensure_connected
    rw [connectLoop_fail_run interval es rest 0]
    rfl
  · exact List.map_fst_zip _ _ (by simp)

/-- C5: when the delegate's on_queue_message raises on the message built
for a delivery, the consumption handler invokes on_message_handle_error
exactly once, with the raised error and the same keyword context, and the
broker-facing handle_message still returns only the spawned task handle. -/
theorem handler_redirects_error_to_hook_once {ε ρ : Type}
    (d : Delegate AMQPMessage ε ρ) (queue_name : List Nat) (channel : Nat)
    (body : List Nat) (envelope : Envelope) (e : ε)
    (h : d.on_queue_message (builtMessage queue_name channel body envelope) =
      Except.error e) :
    (handle_message d queue_name channel body envelope).run =
      (d.on_message_handle_error e (builtMessage queue_name channel body envelope),
        [(e, builtMessage queue_name channel body envelope)]) := by
  unfold handle_message handle_callback
  rw [h]

/-- C5, witness at a concrete failing delegate. -/
theorem handler_redirects_error_to_hook_once_witness :
    failDelegate.on_queue_message (builtMessage [] 0 [] ⟨0⟩) = Except.error 3 ∧
    (handle_message failDelegate [] 0 [] ⟨0⟩).run =
      (failDelegate.on_message_handle_error 3 (builtMessage [] 0 [] ⟨0⟩),
        [(3, builtMessage [] 0 [] ⟨0⟩)]) :=
  ⟨rfl, handler_redirects_error_to_hook_once failDelegate [] 0 [] ⟨0⟩ 3 rfl⟩

/-- C7: put called with truthy data and truthy serialized_data raises
ValueError; the Except carries no PublishCall, so channel.publish is not
invoked. -/
theorem put_both_payloads_raises_before_publish (q : AsyncJsonQueueState)
    (routing_key : String) (data : Option JVal)
    (serialized_data : StrOrBytes) (exchange : String)
    (h1 : dataTruthy data = true) (h2 : sobTruthy serialized_data = true) :
    put q routing_key data serialized_data exchange =
      Except.error
        (PyError.valueError "Only one of data or json should be specified") := by
  simp [put, h1, h2]

/-- C7, witness at concrete non-empty data and serialized_data. -/
theorem put_both_payloads_raises_before_publish_witness :
    dataTruthy (some (JVal.int 1)) = true ∧
    sobTruthy (StrOrBytes.str [97]) = true ∧
    put sampleState "rk" (some (JVal.int 1)) (StrOrBytes.str [97]) "" =
      Except.error
        (PyError.valueError "Only one of data or json should be specified") :=
  ⟨rfl, rfl,
    put_both_payloads_raises_before_publish sampleState "rk"
      (some (JVal.int 1)) (StrOrBytes.str [97]) "" rfl rfl⟩

/-- C8, counterexample: a negative prefetch count is accepted unvalidated
at construction, so negative prefetch limits are not rejected. -/
theorem init_accepts_negative_prefetch :
    initQueue false false (-1) 0 1 =
      Except.ok
        { prefetch_count := -1, max_message_length := 0,
          seconds_between_conn_retry := 1, is_running := true,
          connected := false, channel := none, hasDelegate := false } := rfl

/-- C8, amended: a negative maximum message length makes construction fail
with a ValueError before it completes (whatever the other arguments). -/
theorem init_rejects_negative_max_message_length
    (delegate_class delegate : Bool) (prefetch_count max_message_length : Int)
    (s : Nat) (h : max_message_length < 0) :
    isValueError
      (initQueue delegate_class delegate prefetch_count max_message_length s) =
      true := by
  by_cases hd : (delegate && delegate_class) = true
  · simp [initQueue, hd, isValueError]
  · simp [initQueue, hd, h, isValueError]

/-- C8, witness for the amended theorem at a concrete negative length. -/
theorem init_rejects_negative_max_message_length_witness :
    (-5 : Int) < 0 ∧
    isValueError (initQueue false false 100 (-5) 1) = true :=
  ⟨by decide,
    init_rejects_negative_max_message_length false false 100 (-5) 1 (by decide)⟩

/-- C9: stop_consumer with no current channel raises ConnectionError
rather than silently succeeding, and it is independent of the connected
and liveness flags the Connection Guard would consult: it is unguarded and
never reconnects. -/
theorem stop_consumer_requires_channel (q : AsyncJsonQueueState)
    (consumer_tag : String) (c r : Bool) (h : q.channel = none) :
    stop_consumer q consumer_tag =
      Except.error (PyError.connectionError "Queue is not connected") ∧
    stop_consumer { q with connected := c, is_running := r } consumer_tag =
      stop_consumer q consumer_tag := by
  constructor
  · unfold stop_consumer
    rw [h]
  · rfl

/-- C9, witness on a fresh state without a channel. -/
theorem stop_consumer_requires_channel_witness :
    stop_consumer sampleState "tag" =
      Except.error (PyError.connectionError "Queue is not connected") ∧
    stop_consumer { sampleState with connected := true, is_running := false }
        "tag" =
      stop_consumer sampleState "tag" :=
  stop_consumer_requires_channel sampleState "tag" true false rfl

/-- C10: put publishes a bytes payload longer than max_message_length
unchanged, and put, consume and stop_consumer are unaffected by changing
max_message_length, which no operation after construction reads. -/
theorem max_message_length_not_enforced (q : AsyncJsonQueueState)
    (routing_key exchange : String) (b : List Nat) (m : Int)
    (data : Option JVal) (serialized_data : StrOrBytes)
    (queue_name : List Nat) (consumer_name broker_tag tag : String)
    (_h : q.max_message_length < (b.length : Int)) :
    put q routing_key none (StrOrBytes.bytes b) exchange =
      Except.ok
        { payload := b, exchange_name := exchange, routing_key := routing_key } ∧
    put { q with max_message_length := m } routing_key data serialized_data
        exchange =
      put q routing_key data serialized_data exchange ∧
    consume { q with max_message_length := m } queue_name consumer_name
        broker_tag =
      consume q queue_name consumer_name broker_tag ∧
    stop_consumer { q with max_message_length := m } tag =
      stop_consumer q tag := by
  exact ⟨rfl, rfl, rfl, rfl⟩

/-- C10, witness: a three-byte payload against a zero length limit. -/
theorem max_message_length_not_enforced_witness :
    sampleState.max_message_length < (([1, 2, 3] : List Nat).length : Int) ∧
    put sampleState "rk" none (StrOrBytes.bytes [1, 2, 3]) "" =
      Except.ok { payload := [1, 2, 3], exchange_name := "", routing_key := "rk" } :=
  ⟨by decide,
    (max_message_length_not_enforced sampleState "rk" "" [1, 2, 3] 9 none
      (StrOrBytes.bytes []) [] "" "" "" (by decide)).1⟩

/-- C6, counterexample: a tuple payload serializes exactly like a list, so
the round trip through the default codec returns a list, not the tuple:
the round-trip law fails on the payload (1,). -/
theorem tuple_payload_breaks_roundtrip :
    deserialize (utf8Encode (serialize (JVal.tup [JVal.int 1]) true)) =
      some (JVal.arr [JVal.int 1]) ∧
    JVal.arr [JVal.int 1] ≠ JVal.tup [JVal.int 1] :=
  ⟨rfl, fun h => JVal.noConfusion h⟩

/-- C6, amended: for every payload inside the JSON data model (null,
bools, ints, non-surrogate strings, lists, and string-keyed objects with
pairwise-distinct keys, recursively), deserializing the byte-encoded
serialization returns the payload. -/
theorem json_roundtrip_on_data_model (p : JVal) (h : wf p = true) :
    deserialize (utf8Encode (serialize p true)) = some p := by
  unfold serialize deserialize
  rw [utf8Encode_ascii _ (dumps_all_ascii p)]
  rw [utf8Decode_ascii _ (dumps_all_ascii p) _ (by omega)]
  exact loadsText_dumps p h

/-- C6, witness: the round trip evaluated on a payload exercising every
constructor. -/
theorem json_roundtrip_on_data_model_witness :
    wf samplePayload = true ∧
    deserialize (utf8Encode (serialize samplePayload true)) =
      some samplePayload :=
  ⟨rfl, json_roundtrip_on_data_model samplePayload rfl⟩

end EasyQueue
